import Mathlib

/-!
Shallow embedding of the velero-ui terminal wizard (Go, package `main`).

The repository holds three revisions of the same program:
* `src/main.go` — the named source file;
* the first document of `src/unnamed/part_000` — the fullest revision
  (logger, `parseResources` pattern adapter, `--kubecontext` parameter,
  failed-phase branch in `waitForCompletion`); we treat it as the primary
  program and suffix its poller `V1`;
* the second document of `src/unnamed/part_000` — a refactored revision
  (JSON backup adapter, no resource step); its poller is suffixed `V2`.

Pure functions are translated directly; the Bubble Tea `Update` "enter"
handling becomes an explicit transition function on a `Model` record with
an `Env` oracle standing for the external command executor.  Terminal
rendering, lipgloss styling and component-internal cursor updates are the
out-of-scope presentation layer and are not modelled.
-/

/-- `item` from the source: a flat (title, description) pair. -/
structure Item where
  title : String
  description : String
deriving DecidableEq

/-- `func (i item) FilterValue() string { return i.title }` -/
def Item.filterValue (i : Item) : String := i.title

/-- The slice of a `bubbles` list that the wizard observes: its items,
its cursor (`l.Index()`, a machine int that may be out of range) and its
title. -/
structure ListModel where
  items : List Item
  index : Int
  title : String
deriving DecidableEq

/-- `l.SelectedItem()`: the item under the cursor, or none when the cursor
is out of the list's range (the Go code guards with
`index < 0 || index >= len(l.Items())`). -/
def currentItem (l : ListModel) : Option Item :=
  if l.index < 0 ∨ (l.items.length : Int) ≤ l.index then none
  else l.items[l.index.toNat]?

/-- The loop body of `toggleSelection`: walk `selected`; on the first
element whose `FilterValue` equals the current item's, splice it out;
if the walk finds none, append the current item at the end. -/
def toggleCore (it : Item) : List Item → List Item
  | [] => [it]
  | x :: xs =>
    if x.filterValue == it.filterValue then xs
    else x :: toggleCore it xs

/-- `func (m *model) toggleSelection(l *list.Model, selected *[]list.Item)`:
out-of-range cursor is a no-op; otherwise toggle the current item's
membership in the selection set. -/
def toggleSelection (l : ListModel) (selected : List Item) : List Item :=
  match currentItem l with
  | none => selected
  | some it => toggleCore it selected

/-- Result of one `runShellCommand` call: the combined output together
with an optional error (non-zero exit or launch failure).  Go returns the
output alongside the error in both cases. -/
structure CmdResult where
  output : String
  err : Option String
deriving DecidableEq

/-- `strings.Contains(s, pat)` over the character lists of the strings. -/
def goContains (pat : List Char) : List Char → Bool
  | [] => pat.isEmpty
  | c :: rest => pat.isPrefixOf (c :: rest) || goContains pat rest

/-- The completed-phase marker searched for in the describe output. -/
def completedMarker : List Char := ("\"Phase\": \"Completed\"").data

/-- The failed-phase marker searched for in the describe output. -/
def failedMarker : List Char := ("\"Phase\": \"Failed\"").data

/-- Outcome of a poll over a finite list of status responses. -/
inductive PollOutcome where
  | success
  | failed (msg : String)
  | queryError (e : String)
  | pending
deriving DecidableEq

/-- `waitForCompletion` of the primary revision (part_000, first document,
lines 102–120): on a query error return it; on output containing the
completed marker return success; on output containing the failed marker
return the error `"<operation> <name> failed"`; otherwise sleep and poll
the next response.  `pending` stands for running out of responses while
still polling. -/
def waitForCompletionV1 (operation name : String) : List CmdResult → PollOutcome
  | [] => .pending
  | r :: rest =>
    match r.err with
    | some e => .queryError e
    | none =>
      if goContains completedMarker r.output.data then .success
      else if goContains failedMarker r.output.data then
        .failed (operation ++ " " ++ name ++ " failed")
      else waitForCompletionV1 operation name rest

/-- `waitForCompletion` of `src/main.go` (lines 83–95): identical to `V1`
except that it has no failed-phase branch at all. -/
def waitForCompletionMain (_operation _name : String) : List CmdResult → PollOutcome
  | [] => .pending
  | r :: rest =>
    match r.err with
    | some e => .queryError e
    | none =>
      if goContains completedMarker r.output.data then .success
      else waitForCompletionMain _operation _name rest

/-- `waitForCompletion` of the refactored revision (part_000, second
document, lines 592–613): a query error is only logged, never returned —
the marker checks still run on the combined output and otherwise the loop
continues. -/
def waitForCompletionV2 (operation name : String) : List CmdResult → PollOutcome
  | [] => .pending
  | r :: rest =>
    if goContains completedMarker r.output.data then .success
    else if goContains failedMarker r.output.data then
      .failed (operation ++ " " ++ name ++ " failed")
    else waitForCompletionV2 operation name rest

/-- A status response on which the poller keeps looping: the query
succeeded and the output shows neither terminal phase marker. -/
def InProgress (r : CmdResult) : Prop :=
  r.err = none ∧ goContains completedMarker r.output.data = false ∧
    goContains failedMarker r.output.data = false

instance (r : CmdResult) : Decidable (InProgress r) := by
  unfold InProgress; infer_instance

/-- Go's `unicode.IsSpace`, which `strings.TrimSpace` trims from both
ends: the Unicode White_Space code points — U+0009–U+000D, space, NEL
U+0085, NBSP U+00A0, Ogham space U+1680, U+2000–U+200A, the line and
paragraph separators U+2028/U+2029, U+202F, U+205F and the ideographic
space U+3000. -/
def goIsSpace (c : Char) : Bool :=
  (9 ≤ c.toNat && c.toNat ≤ 13) || c.toNat = 32 || c.toNat = 0x85 ||
    c.toNat = 0xa0 || c.toNat = 0x1680 ||
    (0x2000 ≤ c.toNat && c.toNat ≤ 0x200a) || c.toNat = 0x2028 ||
    c.toNat = 0x2029 || c.toNat = 0x202f || c.toNat = 0x205f ||
    c.toNat = 0x3000

/-- `strings.TrimSpace` on the character list of the output. -/
def trimSpaceChars (s : List Char) : List Char :=
  ((s.dropWhile goIsSpace).reverse.dropWhile goIsSpace).reverse

/-- `strings.Split(s, "\n")` on character lists: splitting always yields
one (possibly empty) segment more than the number of newlines. -/
def splitLines : List Char → List (List Char)
  | [] => [[]]
  | c :: rest =>
    if c = '\n' then [] :: splitLines rest
    else
      match splitLines rest with
      | [] => [[c]]
      | l :: ls => (c :: l) :: ls

/-- The pure part of `fetchItems`: trim the combined output, split on
newline, and map each line verbatim to an item with empty description. -/
def parseLines (output : String) : List Item :=
  (splitLines (trimSpaceChars output.data)).map
    (fun l => { title := String.mk l, description := "" })

/-- The resource-type allowlist of `parseResources`, in the alternation
order of the regular expression
`^(pod|service|deployment\.apps|replicaset\.apps)/([^ ]+)`. -/
def resourceKinds : List (List Char) :=
  [("pod/").data, ("service/").data,
   ("deployment.apps/").data, ("replicaset.apps/").data]

/-- The first match of the anchored resource regular expression on one
line: a whitelisted `type/` at the start of the line followed by a
non-empty run of non-space characters; the whole match is returned. -/
def matchResourceLine (line : List Char) : Option (List Char) :=
  match resourceKinds.find? (fun p => p.isPrefixOf line) with
  | none => none
  | some p =>
    let name := (line.drop p.length).takeWhile (fun c => ¬ c = ' ')
    if name.isEmpty then none else some (p ++ name)

/-- The line loop of `parseResources`, threading the `seen` set: a line
with no match is skipped; a match already seen is skipped; a fresh match
is appended and recorded. -/
def parseResourcesAux (seen : List (List Char)) :
    List (List Char) → List Item
  | [] => []
  | line :: rest =>
    match matchResourceLine line with
    | none => parseResourcesAux seen rest
    | some r =>
      if r ∈ seen then parseResourcesAux seen rest
      else { title := String.mk r, description := "" } ::
        parseResourcesAux (r :: seen) rest

/-- `func parseResources(output string) []list.Item` (part_000, first
document, lines 213–229): split the raw output on newline (no trimming)
and run the dedup loop with an empty seen set. -/
def parseResources (output : String) : List Item :=
  parseResourcesAux [] (splitLines output.data)

/-- Modelled from the spec: the per-line first matches of the pattern
adapter, in line order ("collect the first match per line", lines with no
match "are silently skipped"). -/
def specLineMatches (lines : List (List Char)) : List (List Char) :=
  lines.filterMap matchResourceLine

/-- Modelled from the spec: "deduplicate by the matched string using a
seen-set, preserving first-seen order". -/
def specDedupFirstSeen (seen : List (List Char)) :
    List (List Char) → List (List Char)
  | [] => []
  | x :: xs =>
    if x ∈ seen then specDedupFirstSeen seen xs
    else x :: specDedupFirstSeen (x :: seen) xs

/-- The wizard steps, in the declaration order of the source `const` block. -/
inductive Step where
  | stepOperation
  | stepContext
  | stepNamespace
  | stepBackupSelection
  | stepResourceDecision
  | stepResource
  | stepBackupName
  | stepExecute
deriving DecidableEq

/-- The wizard-level fields of the `model` struct (list sizes, focus and
styling are presentation and not modelled; a list's items, cursor and
title are kept). -/
structure Model where
  step : Step
  operationList : ListModel
  contextList : ListModel
  namespaceList : ListModel
  resourceList : ListModel
  backupList : ListModel
  resourceDecisionList : ListModel
  backupNameInput : String
  selectedOp : Item
  selectedCtx : Item
  selectedNS : List Item
  selectedRes : List Item
  selectedBackup : Item
  backupName : String
  err : Option String
deriving DecidableEq

/-- The external world: `exec` is the synchronous command executor
(`runShellCommand`) for the one-shot commands, and `polls` is the
sequence of responses the repeated status query of `waitForCompletion`
receives. -/
structure Env where
  exec : String → CmdResult
  polls : List CmdResult

/-- Result of handling one "enter" key: the next model with the quit
flag, a nil-interface panic (a `SelectedItem` type assertion on an empty
list), or divergence (the unbounded poll loop never seeing a terminal
phase). -/
inductive StepResult where
  | next (m : Model) (quit : Bool)
  | panic
  | diverge
deriving DecidableEq

/-- `fetchItems` of the source: run the command; propagate its error
without items, else parse the trimmed output line-wise. -/
def fetchItems (env : Env) (command : String) : Except String (List Item) :=
  let r := env.exec command
  match r.err with
  | some e => .error e
  | none => .ok (parseLines r.output)

def cmdContexts : String := "kubectl config get-contexts -o name"

def cmdBackups : String :=
  "velero backup get -o custom-columns=NAME:.metadata.name --no-headers"

def cmdNamespaces : String :=
  "kubectl get namespaces -o custom-columns=NAME:.metadata.name --no-headers"

/-- `fmt.Sprintf("kubectl get all -n %s --no-headers", strings.Join(namespaceStrs, " "))`. -/
def cmdResources (selectedNS : List Item) : String :=
  "kubectl get all -n " ++ String.intercalate " " (selectedNS.map Item.title)
    ++ " --no-headers"

/-- `fmt.Sprintf("velero backup create %s --include-namespaces %s --kubecontext %s",
m.backupName, strings.Join(namespaceStrs, ","), m.selectedCtx.Title())`
(part_000, first document, line 340; `src/main.go` line 281 builds the
same command without the trailing `--kubecontext` parameter). -/
def backupDispatchCmd (m : Model) : String :=
  "velero backup create " ++ m.backupName ++ " --include-namespaces "
    ++ String.intercalate "," (m.selectedNS.map Item.title)
    ++ " --kubecontext " ++ m.selectedCtx.title

/-- `fmt.Sprintf("velero restore create --from-backup %s", m.selectedBackup.Title())`. -/
def restoreDispatchCmd (m : Model) : String :=
  "velero restore create --from-backup " ++ m.selectedBackup.title

def errFetchContexts : String := "error fetching contexts: "
def errFetchBackups : String := "error fetching backups: "
def errFetchNamespaces : String := "error fetching namespaces: "
def errFetchResources : String := "error fetching resources: "
def errNoNamespace : String := "no namespace selected"
def errNoResource : String := "no resource selected"
def errStartBackup : String := "error starting backup: "
def errStartRestore : String := "error starting restore: "
def errWaitBackup : String := "error waiting for backup completion: "
def errWaitRestore : String := "error waiting for restore completion: "
def titleBackupResources : String :=
  "Backup Specific Resources? (Press Enter to Confirm)"
def titleRestoreResources : String :=
  "Restore Specific Resources? (Press Enter to Confirm)"
def opBackupTitle : String := "Backup"
def decisionYesTitle : String := "Yes"

/-- The "enter" branch of `Update` in the primary revision (part_000,
first document, lines 235–371), as a transition on the wizard-level
state.  Each case mirrors the corresponding `case step...:` of the Go
switch; `tea.Quit` becomes the `quit` flag; the unbounded poll loop is
read against `env.polls`. -/
def handleEnter (m : Model) (env : Env) : StepResult :=
  match m.step with
  | .stepOperation =>
    match currentItem m.operationList with
    | none => .panic
    | some sel =>
      let m1 := { m with selectedOp := sel }
      if sel.title == opBackupTitle then
        let m2 := { m1 with step := .stepContext }
        match fetchItems env cmdContexts with
        | .error e => .next { m2 with err := some (errFetchContexts ++ e) } true
        | .ok its =>
          .next { m2 with contextList := { m2.contextList with items := its } } false
      else
        let m2 := { m1 with step := .stepBackupSelection }
        match fetchItems env cmdBackups with
        | .error e => .next { m2 with err := some (errFetchBackups ++ e) } true
        | .ok its =>
          .next { m2 with backupList := { m2.backupList with items := its } } false
  | .stepBackupSelection =>
    match currentItem m.backupList with
    | none => .panic
    | some sel =>
      let m2 := { m with selectedBackup := sel, step := .stepContext }
      match fetchItems env cmdContexts with
      | .error e => .next { m2 with err := some (errFetchContexts ++ e) } true
      | .ok its =>
        .next { m2 with contextList := { m2.contextList with items := its } } false
  | .stepContext =>
    match currentItem m.contextList with
    | none => .panic
    | some sel =>
      let m2 := { m with selectedCtx := sel, step := .stepNamespace }
      match fetchItems env cmdNamespaces with
      | .error e => .next { m2 with err := some (errFetchNamespaces ++ e) } true
      | .ok its =>
        .next { m2 with namespaceList := { m2.namespaceList with items := its } } false
  | .stepNamespace =>
    if 0 < m.selectedNS.length then
      let t := if m.selectedOp.title == opBackupTitle
        then titleBackupResources else titleRestoreResources
      .next { m with
        resourceDecisionList := { m.resourceDecisionList with title := t },
        step := .stepResourceDecision } false
    else
      .next { m with err := some errNoNamespace } false
  | .stepResourceDecision =>
    match currentItem m.resourceDecisionList with
    | none => .panic
    | some sel =>
      if sel.title == decisionYesTitle then
        match (env.exec (cmdResources m.selectedNS)).err with
        | some e =>
          .next { m with
            step := .stepResource
            err := some (errFetchResources ++ e) } true
        | none =>
          .next { m with
            step := .stepResource
            resourceList := { m.resourceList with
              items := parseResources (env.exec (cmdResources m.selectedNS)).output } }
            false
      else
        .next { m with step := .stepBackupName } false
  | .stepResource =>
    if 0 < m.selectedRes.length then
      .next { m with step := .stepBackupName } false
    else
      .next { m with err := some errNoResource } false
  | .stepBackupName =>
    .next { m with backupName := m.backupNameInput, step := .stepExecute } true
  | .stepExecute =>
    if m.selectedOp.title == opBackupTitle then
      match (env.exec (backupDispatchCmd m)).err with
      | some e => .next { m with err := some (errStartBackup ++ e) } true
      | none =>
        match waitForCompletionV1 ("backup") m.backupName env.polls with
        | .pending => .diverge
        | .success => .next m true
        | .failed msg => .next { m with err := some (errWaitBackup ++ msg) } true
        | .queryError e => .next { m with err := some (errWaitBackup ++ e) } true
    else
      match (env.exec (restoreDispatchCmd m)).err with
      | some e => .next { m with err := some (errStartRestore ++ e) } true
      | none =>
        match waitForCompletionV1 ("restore") m.selectedBackup.title env.polls with
        | .pending => .diverge
        | .success => .next m true
        | .failed msg => .next { m with err := some (errWaitRestore ++ msg) } true
        | .queryError e => .next { m with err := some (errWaitRestore ++ e) } true

/-- The newline-join of a list of lines (the shape of line-oriented
command output before an optional trailing newline). -/
def intercalateNl : List (List Char) → List Char
  | [] => []
  | [l] => l
  | l :: ls => l ++ '\n' :: intercalateNl ls

/-- A describe output carrying both terminal phase markers (as a nested
per-item status can). -/
def bothMarkersOutput : String := "\"Phase\": \"Completed\" \"Phase\": \"Failed\""

/-- A describe output carrying only the in-progress phase. -/
def inProgressOutput : String := "\"Phase\": \"InProgress\""

/-- A describe output carrying only the failed phase marker. -/
def failedOnlyOutput : String := "\"Phase\": \"Failed\""

/-- A describe output carrying only the completed phase marker. -/
def completedOnlyOutput : String := "\"Phase\": \"Completed\""

/-- An empty bubbles list. -/
def emptyListModel : ListModel := { items := [], index := 0, title := "" }

/-- A wizard state with every field at its zero value (the shape of the
Go struct before `initialModel` fills the lists). -/
def baseModel : Model where
  step := .stepOperation
  operationList := emptyListModel
  contextList := emptyListModel
  namespaceList := emptyListModel
  resourceList := emptyListModel
  backupList := emptyListModel
  resourceDecisionList := emptyListModel
  backupNameInput := ""
  selectedOp := { title := "", description := "" }
  selectedCtx := { title := "", description := "" }
  selectedNS := []
  selectedRes := []
  selectedBackup := { title := "", description := "" }
  backupName := ""
  err := none

/-- An environment whose commands all succeed with empty output and whose
single status response reports the completed phase. -/
def envCompleted : Env where
  exec := fun _ => { output := "", err := none }
  polls := [{ output := completedOnlyOutput, err := none }]

/-- A concrete execute-step state for the backup branch. -/
def mBackupExec : Model :=
  { baseModel with
      step := .stepExecute
      selectedOp := { title := "Backup", description := "" }
      selectedCtx := { title := "prod", description := "" }
      selectedNS := [{ title := "ns1", description := "" },
        { title := "ns2", description := "" }]
      backupName := "nightly" }

/-- A concrete resource-step state with an empty resource selection. -/
def mResourceEmpty : Model := { baseModel with step := .stepResource }

/-- A concrete namespace-step state with an empty namespace selection. -/
def mNamespaceEmpty : Model := { baseModel with step := .stepNamespace }

theorem toggleCore_of_absent (it : Item) (sel : List Item)
    (h : ∀ z ∈ sel, z.title ≠ it.title) :
    toggleCore it sel = sel ++ [it] := by
  induction sel with
  | nil => rfl
  | cons x xs ih =>
    have hx : x.title ≠ it.title := h x (List.mem_cons_self x xs)
    have hxs : ∀ z ∈ xs, z.title ≠ it.title :=
      fun z hz => h z (List.mem_cons_of_mem x hz)
    simp [toggleCore, Item.filterValue, hx, ih hxs]

theorem toggleCore_removes_first (it y : Item) (pre post : List Item)
    (hpre : ∀ z ∈ pre, z.title ≠ it.title) (hy : y.title = it.title) :
    toggleCore it (pre ++ y :: post) = pre ++ post := by
  induction pre with
  | nil => simp [toggleCore, Item.filterValue, hy]
  | cons x xs ih =>
    have hx : x.title ≠ it.title := hpre x (List.mem_cons_self x xs)
    have hxs : ∀ z ∈ xs, z.title ≠ it.title :=
      fun z hz => hpre z (List.mem_cons_of_mem x hz)
    simp [toggleCore, Item.filterValue, hx, ih hxs]

/-- Claim C6 (confirmed): for every selection set and cursor state, the
toggle removes exactly the first element sharing the current item's
title while preserving the relative order of the rest, appends the
current item when its title is absent, and leaves the set unchanged when
the cursor is out of the list's range. -/
theorem c6_toggle_semantics (l : ListModel) (sel : List Item) :
    (∀ it, currentItem l = some it →
      ((∀ pre y post, sel = pre ++ y :: post → y.title = it.title →
          (∀ z ∈ pre, z.title ≠ it.title) →
          toggleSelection l sel = pre ++ post) ∧
        ((∀ z ∈ sel, z.title ≠ it.title) →
          toggleSelection l sel = sel ++ [it]))) ∧
    (currentItem l = none → toggleSelection l sel = sel) := by
  constructor
  · intro it hit
    constructor
    · intro pre y post hsel hy hpre
      subst hsel
      unfold toggleSelection
      rw [hit]
      exact toggleCore_removes_first it y pre post hpre hy
    · intro h
      unfold toggleSelection
      rw [hit]
      exact toggleCore_of_absent it sel h
  · intro h
    unfold toggleSelection
    rw [h]

/-- Witness for C6: removal of the first title match with order kept,
append of an absent item, and the out-of-range no-op, each at concrete
inputs. -/
theorem c6_toggle_semantics_witness :
    toggleSelection { items := [{ title := "b", description := "" }], index := 0, title := "" }
        [{ title := "a", description := "" }, { title := "b", description := "d" },
          { title := "c", description := "" }] =
      [{ title := "a", description := "" }, { title := "c", description := "" }] ∧
    toggleSelection { items := [{ title := "b", description := "" }], index := 0, title := "" }
        [{ title := "a", description := "" }] =
      [{ title := "a", description := "" }, { title := "b", description := "" }] ∧
    toggleSelection { items := [{ title := "b", description := "" }], index := 5, title := "" }
        [{ title := "a", description := "" }] =
      [{ title := "a", description := "" }] := by
  refine ⟨?_, ?_, ?_⟩
  · exact ((c6_toggle_semantics _ _).1 { title := "b", description := "" }
      (by decide)).1 [{ title := "a", description := "" }]
      { title := "b", description := "d" } [{ title := "c", description := "" }]
      rfl rfl (by decide)
  · exact ((c6_toggle_semantics _ _).1 { title := "b", description := "" }
      (by decide)).2 (by decide)
  · exact (c6_toggle_semantics _ _).2 (by decide)

/-- Claim C7 (confirmed): toggling the same item twice starting from the
empty selection set returns the set to empty. -/
theorem c7_toggle_twice_empty (it : Item) :
    toggleSelection { items := [it], index := 0, title := "" }
      (toggleSelection { items := [it], index := 0, title := "" } []) = [] := by
  have hcur : currentItem { items := [it], index := 0, title := "" } = some it := rfl
  have h1 : toggleSelection { items := [it], index := 0, title := "" } [] = [it] := by
    unfold toggleSelection
    rw [hcur]
    rfl
  rw [h1]
  unfold toggleSelection
  rw [hcur]
  simp [toggleCore, Item.filterValue]

theorem waitV1_skip_inprogress (operation name : String)
    (pre rest : List CmdResult) (h : ∀ r ∈ pre, InProgress r) :
    waitForCompletionV1 operation name (pre ++ rest) =
      waitForCompletionV1 operation name rest := by
  induction pre with
  | nil => rfl
  | cons r pre ih =>
    obtain ⟨he, hc, hf⟩ := h r (List.mem_cons_self r pre)
    have hrest : ∀ x ∈ pre, InProgress x :=
      fun x hx => h x (List.mem_cons_of_mem r hx)
    simp [waitForCompletionV1, he, hc, hf, ih hrest]

theorem waitMain_skip_inprogress (operation name : String)
    (pre rest : List CmdResult) (h : ∀ r ∈ pre, InProgress r) :
    waitForCompletionMain operation name (pre ++ rest) =
      waitForCompletionMain operation name rest := by
  induction pre with
  | nil => rfl
  | cons r pre ih =>
    obtain ⟨he, hc, _⟩ := h r (List.mem_cons_self r pre)
    have hrest : ∀ x ∈ pre, InProgress x :=
      fun x hx => h x (List.mem_cons_of_mem r hx)
    simp [waitForCompletionMain, he, hc, ih hrest]

/-- Counterexample to claim C1 as stated: a status output that carries
the failed-phase marker (inside a response that also shows a completed
phase) makes `waitForCompletion` return success, not an error. -/
theorem c1_counterexample :
    goContains failedMarker bothMarkersOutput.data = true ∧
    waitForCompletionV1 ("backup") ("nightly")
      [{ output := bothMarkersOutput, err := none }] = .success := by
  decide

/-- Claim C1 (corrected): if a successful status query returns output
containing the failed-phase marker and not the completed-phase marker,
`waitForCompletion` (primary revision) stops polling at that response and
returns the error `"<operationKind> <operationName> failed"`, whatever
responses would have followed. -/
theorem c1_failed_marker_error (operation name : String)
    (pre : List CmdResult) (out : String) (rest : List CmdResult)
    (hpre : ∀ r ∈ pre, InProgress r)
    (hc : goContains completedMarker out.data = false)
    (hf : goContains failedMarker out.data = true) :
    waitForCompletionV1 operation name
        (pre ++ { output := out, err := none } :: rest) =
      .failed (operation ++ " " ++ name ++ " failed") := by
  rw [waitV1_skip_inprogress operation name pre _ hpre]
  simp [waitForCompletionV1, hc, hf]

/-- Witness for the corrected C1 at a concrete in-progress response
followed by a failed response. -/
theorem c1_failed_marker_error_witness :
    waitForCompletionV1 ("backup") ("nightly")
        ([{ output := inProgressOutput, err := none }] ++
          { output := failedOnlyOutput, err := none } :: []) =
      .failed ("backup nightly failed") :=
  c1_failed_marker_error ("backup") ("nightly")
    [{ output := inProgressOutput, err := none }] failedOnlyOutput []
    (by decide) (by decide) (by decide)

/-- Claim C4 (confirmed): when the status query itself errors, the poller
of `src/main.go` and of the primary revision returns exactly that error
on that iteration, independently of any later responses. -/
theorem c4_query_error_immediate (operation name : String)
    (pre : List CmdResult) (out e : String) (rest : List CmdResult)
    (hpre : ∀ r ∈ pre, InProgress r) :
    waitForCompletionV1 operation name
        (pre ++ { output := out, err := some e } :: rest) = .queryError e ∧
    waitForCompletionMain operation name
        (pre ++ { output := out, err := some e } :: rest) = .queryError e := by
  constructor
  · rw [waitV1_skip_inprogress operation name pre _ hpre]
    rfl
  · rw [waitMain_skip_inprogress operation name pre _ hpre]
    rfl

/-- Witness for C4 at a concrete in-progress response followed by a
failing query. -/
theorem c4_query_error_immediate_witness :
    waitForCompletionV1 ("backup") ("nightly")
        ([{ output := inProgressOutput, err := none }] ++
          { output := "", err := some ("exit status 1") } :: []) =
      .queryError ("exit status 1") ∧
    waitForCompletionMain ("backup") ("nightly")
        ([{ output := inProgressOutput, err := none }] ++
          { output := "", err := some ("exit status 1") } :: []) =
      .queryError ("exit status 1") :=
  c4_query_error_immediate ("backup") ("nightly")
    [{ output := inProgressOutput, err := none }] ("") ("exit status 1") []
    (by decide)

/-- Claim C10 (confirmed): the completed-phase substring test runs before
the failed-phase one, so a status output containing both literals makes
the poller (both part_000 revisions) return success rather than the
failure error. -/
theorem c10_completed_precedes_failed (operation name : String)
    (out : String) (rest : List CmdResult)
    (hc : goContains completedMarker out.data = true)
    (_hf : goContains failedMarker out.data = true) :
    waitForCompletionV1 operation name
        ({ output := out, err := none } :: rest) = .success ∧
    waitForCompletionV2 operation name
        ({ output := out, err := none } :: rest) = .success := by
  refine ⟨?_, ?_⟩ <;>
    simp [waitForCompletionV1, waitForCompletionV2, hc]

/-- Witness for C10 at the concrete both-markers output. -/
theorem c10_completed_precedes_failed_witness :
    waitForCompletionV1 ("backup") ("nightly")
        [{ output := bothMarkersOutput, err := none }] = .success ∧
    waitForCompletionV2 ("backup") ("nightly")
        [{ output := bothMarkersOutput, err := none }] = .success :=
  c10_completed_precedes_failed ("backup") ("nightly") bothMarkersOutput []
    (by decide) (by decide)

/-- Claim C2 (confirmed): toggling `ns1` then `ns2` (in that order) and
executing the backup branch with name `nightly` and context `prod`
synthesizes a dispatch command whose parameters are exactly the entered
name, the comma-join of the selected namespace titles in selection
order, and the chosen context title. -/
theorem c2_backup_dispatch_params :
    toggleSelection
        { items := [{ title := "ns1", description := "" },
            { title := "ns2", description := "" }], index := 1, title := "" }
        (toggleSelection
          { items := [{ title := "ns1", description := "" },
              { title := "ns2", description := "" }], index := 0, title := "" }
          []) = mBackupExec.selectedNS ∧
    backupDispatchCmd mBackupExec =
      "velero backup create nightly --include-namespaces ns1,ns2 --kubecontext prod" := by
  decide

/-- Claim C3 (confirmed): after a successful dispatch at the execute
step, the outcome of the transition is that of the Completion Poller
applied to the operation kind and — as the operation name — the entered
name for backup and the previously selected backup's title for restore:
poller success quits cleanly, poller failure surfaces the wrapped
message. -/
theorem c3_poller_invocation (m : Model) (env : Env)
    (hstep : m.step = .stepExecute) :
    (m.selectedOp.title = opBackupTitle →
      (env.exec (backupDispatchCmd m)).err = none →
      ((waitForCompletionV1 ("backup") m.backupName env.polls = .success →
          handleEnter m env = .next m true) ∧
        (∀ msg,
          waitForCompletionV1 ("backup") m.backupName env.polls = .failed msg →
          handleEnter m env =
            .next { m with err := some (errWaitBackup ++ msg) } true))) ∧
    (m.selectedOp.title ≠ opBackupTitle →
      (env.exec (restoreDispatchCmd m)).err = none →
      ((waitForCompletionV1 ("restore") m.selectedBackup.title env.polls = .success →
          handleEnter m env = .next m true) ∧
        (∀ msg,
          waitForCompletionV1 ("restore") m.selectedBackup.title env.polls = .failed msg →
          handleEnter m env =
            .next { m with err := some (errWaitRestore ++ msg) } true))) := by
  constructor
  · intro hB hd
    constructor
    · intro hs
      simp [handleEnter, hstep, hB, hd, hs]
    · intro msg hf
      simp [handleEnter, hstep, hB, hd, hf]
  · intro hB hd
    have hBf : (m.selectedOp.title == opBackupTitle) = false :=
      beq_eq_false_iff_ne.mpr hB
    constructor
    · intro hs
      simp [handleEnter, hstep, hBf, hd, hs]
    · intro msg hf
      simp [handleEnter, hstep, hBf, hd, hf]

/-- Witness for C3: a concrete backup execute state whose dispatch
succeeds and whose first status response is completed quits without an
error. -/
theorem c3_poller_invocation_witness :
    handleEnter mBackupExec envCompleted = .next mBackupExec true :=
  ((c3_poller_invocation mBackupExec envCompleted rfl).1 rfl rfl).1 (by decide)

/-- Counterexample to claim C5 as stated: confirming the resource step
with an empty resource selection is a second non-fatal error path — the
step pointer stays, a non-nil error is set and the session does not
quit, yet the step is not the namespace step. -/
theorem c5_counterexample :
    handleEnter mResourceEmpty envCompleted =
      .next { mResourceEmpty with err := some errNoResource } false ∧
    mResourceEmpty.step ≠ .stepNamespace ∧
    mResourceEmpty.err = none := by
  decide

/-- Claim C5 (corrected): confirming the namespace step with an empty
selection set leaves every field but the last error unchanged, sets a
non-nil error and does not quit; and every transition that neither quits
nor leaves the error slot untouched is one of the two
empty-required-selection confirmations (namespaces, or resources in the
resource-capable flow). -/
theorem c5_empty_selection_nonfatal (m : Model) (env : Env) :
    (m.step = .stepNamespace → m.selectedNS = [] →
      handleEnter m env = .next { m with err := some errNoNamespace } false) ∧
    (∀ m', handleEnter m env = .next m' false → m'.err = m.err ∨
      (m.step = .stepNamespace ∧ m.selectedNS = []) ∨
      (m.step = .stepResource ∧ m.selectedRes = [])) := by
  constructor
  · intro h1 h2
    simp [handleEnter, h1, h2]
  · intro m' h
    unfold handleEnter at h
    cases hs : m.step <;> rw [hs] at h <;> repeat' split at h
    all_goals simp_all
    all_goals subst h
    all_goals simp_all [List.length_eq_zero]

/-- Witness for the corrected C5 at a concrete namespace-step state with
nothing selected. -/
theorem c5_empty_selection_nonfatal_witness :
    handleEnter mNamespaceEmpty envCompleted =
      .next { mNamespaceEmpty with err := some errNoNamespace } false ∧
    (({ mNamespaceEmpty with err := some errNoNamespace } : Model).err =
        mNamespaceEmpty.err ∨
      (mNamespaceEmpty.step = .stepNamespace ∧ mNamespaceEmpty.selectedNS = []) ∨
      (mNamespaceEmpty.step = .stepResource ∧ mNamespaceEmpty.selectedRes = [])) :=
  ⟨(c5_empty_selection_nonfatal mNamespaceEmpty envCompleted).1 rfl rfl,
    (c5_empty_selection_nonfatal mNamespaceEmpty envCompleted).2
      { mNamespaceEmpty with err := some errNoNamespace }
      ((c5_empty_selection_nonfatal mNamespaceEmpty envCompleted).1 rfl rfl)⟩

theorem parseResourcesAux_spec (lines : List (List Char)) :
    ∀ seen, parseResourcesAux seen lines =
      (specDedupFirstSeen seen (specLineMatches lines)).map
        (fun r => { title := String.mk r, description := "" }) := by
  induction lines with
  | nil => intro seen; rfl
  | cons line rest ih =>
    intro seen
    cases hm : matchResourceLine line with
    | none =>
      simp [parseResourcesAux, specLineMatches, List.filterMap_cons, hm, ih seen,
        specLineMatches]
    | some r =>
      by_cases hr : r ∈ seen
      · simp [parseResourcesAux, specLineMatches, List.filterMap_cons, hm, hr,
          specDedupFirstSeen, ih seen, specLineMatches]
      · simp [parseResourcesAux, specLineMatches, List.filterMap_cons, hm, hr,
          specDedupFirstSeen, ih (r :: seen), specLineMatches]

/-- Claim C9 (confirmed): the pattern adapter equals, for every input,
the spec-side pipeline — per-line first matches of the whitelisted
prefixes, deduplicated by the matched string in first-seen order — and
on the sample input with a repeated pod line, a repeated service line
and an unrelated line it yields exactly `pod/foo` and `service/bar`,
each once. -/
theorem c9_pattern_adapter :
    (∀ output, parseResources output =
      (specDedupFirstSeen [] (specLineMatches (splitLines output.data))).map
        (fun r => { title := String.mk r, description := "" })) ∧
    parseResources
        ("pod/foo  Running\nservice/bar  ClusterIP\nsome other line\npod/foo  Running\nservice/bar  ClusterIP") =
      [{ title := "pod/foo", description := "" },
        { title := "service/bar", description := "" }] := by
  constructor
  · intro output
    exact parseResourcesAux_spec (splitLines output.data) []
  · decide

theorem splitLines_no_newline (l : List Char) (h : '\n' ∉ l) :
    splitLines l = [l] := by
  induction l with
  | nil => rfl
  | cons c t ih =>
    have hc : ¬ c = '\n' := fun hx => h (hx ▸ List.mem_cons_self c t)
    have ht : '\n' ∉ t := fun hx => h (List.mem_cons_of_mem c hx)
    simp [splitLines, hc, ih ht]

theorem splitLines_append_newline (l r : List Char) (h : '\n' ∉ l) :
    splitLines (l ++ '\n' :: r) = l :: splitLines r := by
  induction l with
  | nil => simp [splitLines]
  | cons c t ih =>
    have hc : ¬ c = '\n' := fun hx => h (hx ▸ List.mem_cons_self c t)
    have ht : '\n' ∉ t := fun hx => h (List.mem_cons_of_mem c hx)
    simp [splitLines, hc, ih ht]

theorem splitLines_intercalateNl (L : List (List Char))
    (hne : L ≠ []) (hnl : ∀ l ∈ L, '\n' ∉ l) :
    splitLines (intercalateNl L) = L := by
  induction L with
  | nil => exact absurd rfl hne
  | cons l rest ih =>
    cases rest with
    | nil => exact splitLines_no_newline l (hnl l (List.mem_cons_self l []))
    | cons l2 rest2 =>
      have e : intercalateNl (l :: l2 :: rest2) =
          l ++ '\n' :: intercalateNl (l2 :: rest2) := rfl
      rw [e, splitLines_append_newline l _ (hnl l (List.mem_cons_self l _)),
        ih (List.cons_ne_nil l2 rest2)
          (fun x hx => hnl x (List.mem_cons_of_mem l hx))]

theorem dropWhile_head_false (p : Char → Bool) (c : Char) (l : List Char)
    (h : p c = false) : List.dropWhile p (c :: l) = c :: l := by
  simp [List.dropWhile_cons, h]

theorem dropWhile_append_of_all (p : Char → Bool) (a b : List Char)
    (h : ∀ x ∈ a, p x = true) :
    List.dropWhile p (a ++ b) = List.dropWhile p b := by
  induction a with
  | nil => rfl
  | cons c t ih =>
    have hc : p c = true := h c (List.mem_cons_self c t)
    have ht : ∀ x ∈ t, p x = true := fun x hx => h x (List.mem_cons_of_mem c hx)
    simp [List.dropWhile_cons, hc, ih ht]

theorem reverse_of_getLast (l : List Char) (c : Char)
    (h : l.getLast? = some c) : ∃ Y, l.reverse = c :: Y := by
  have h2 : l.reverse.head? = some c := by rw [List.head?_reverse]; exact h
  cases hr : l.reverse with
  | nil => rw [hr] at h2; cases h2
  | cons a Y =>
    rw [hr] at h2
    injection h2 with h3
    exact ⟨Y, by rw [h3]⟩

theorem intercalateNl_reverse_head (L' : List (List Char)) :
    ∀ (l1 ln : List Char) (cn : Char),
    (l1 :: L').getLast? = some ln → ln.getLast? = some cn →
    ∃ Y, (intercalateNl (l1 :: L')).reverse = cn :: Y := by
  induction L' with
  | nil =>
    intro l1 ln cn hlast h2
    have e : l1 = ln := by
      have : (l1 :: ([] : List (List Char))).getLast? = some l1 := rfl
      rw [this] at hlast
      injection hlast
    subst e
    exact reverse_of_getLast l1 cn h2
  | cons l2 rest ih =>
    intro l1 ln cn hlast h2
    have hlast2 : (l2 :: rest).getLast? = some ln := by
      rw [← List.getLast?_cons_cons]
      exact hlast
    obtain ⟨Y, hY⟩ := ih l2 ln cn hlast2 h2
    refine ⟨Y ++ '\n' :: l1.reverse, ?_⟩
    have e : intercalateNl (l1 :: l2 :: rest) =
        l1 ++ '\n' :: intercalateNl (l2 :: rest) := rfl
    rw [e]
    simp [List.reverse_append, hY]

theorem trim_intercalateNl (l1 : List Char) (L' : List (List Char))
    (ln : List Char) (c1 cn : Char) (tail : List Char)
    (h1 : l1.head? = some c1) (hc1 : goIsSpace c1 = false)
    (hlast : (l1 :: L').getLast? = some ln)
    (h2 : ln.getLast? = some cn) (hcn : goIsSpace cn = false)
    (htail : ∀ x ∈ tail, goIsSpace x = true) :
    trimSpaceChars (intercalateNl (l1 :: L') ++ tail) =
      intercalateNl (l1 :: L') := by
  obtain ⟨t, ht⟩ : ∃ t, l1 = c1 :: t := by
    cases l1 with
    | nil => cases h1
    | cons a t =>
      have : a = c1 := by injection h1
      exact ⟨t, by rw [this]⟩
  obtain ⟨X, hX⟩ : ∃ X, intercalateNl (l1 :: L') = c1 :: X := by
    subst ht
    cases L' with
    | nil => exact ⟨t, rfl⟩
    | cons l2 rest => exact ⟨t ++ '\n' :: intercalateNl (l2 :: rest), rfl⟩
  obtain ⟨Y, hY⟩ := intercalateNl_reverse_head L' l1 ln cn hlast h2
  unfold trimSpaceChars
  have e1 : intercalateNl (l1 :: L') ++ tail = c1 :: (X ++ tail) := by
    rw [hX]; rfl
  rw [e1, dropWhile_head_false goIsSpace c1 (X ++ tail) hc1]
  have e2 : (c1 :: (X ++ tail)).reverse = tail.reverse ++ (c1 :: X).reverse := by
    have : c1 :: (X ++ tail) = (c1 :: X) ++ tail := by simp
    rw [this, List.reverse_append]
  rw [e2, dropWhile_append_of_all goIsSpace tail.reverse _
    (fun x hx => htail x (List.mem_reverse.mp hx))]
  rw [← hX, hY, dropWhile_head_false goIsSpace cn Y hcn, ← hY]
  simp [hX]

/-- Claim C8 (corrected): on command output that is the newline-join of
lines whose first line does not begin with whitespace and whose last
line does not end with whitespace, optionally followed by a trailing
newline, the line adapter yields exactly those lines verbatim as titles
in order with empty descriptions; and on empty output it yields a single
empty-titled item rather than none. -/
theorem c8_line_adapter :
    (∀ (env : Env) (command : String) (l1 ln : List Char)
      (L' : List (List Char)) (c1 cn : Char) (nl : Bool),
      env.exec command =
        { output := String.mk (intercalateNl (l1 :: L') ++
            (if nl then ['\n'] else [])), err := none } →
      (∀ l ∈ l1 :: L', '\n' ∉ l) →
      l1.head? = some c1 → goIsSpace c1 = false →
      (l1 :: L').getLast? = some ln →
      ln.getLast? = some cn → goIsSpace cn = false →
      fetchItems env command =
        .ok ((l1 :: L').map
          (fun l => { title := String.mk l, description := "" }))) ∧
    parseLines ("") = [{ title := "", description := "" }] := by
  constructor
  · intro env command l1 ln L' c1 cn nl hout hnl h1 hc1 hlast h2 hcn
    unfold fetchItems
    rw [hout]
    have htail : ∀ x ∈ (if nl then ['\n'] else ([] : List Char)),
        goIsSpace x = true := by
      cases nl <;> decide
    have e : parseLines (String.mk (intercalateNl (l1 :: L') ++
        (if nl then ['\n'] else []))) =
        (l1 :: L').map (fun l => { title := String.mk l, description := "" }) := by
      unfold parseLines
      have hd : (String.mk (intercalateNl (l1 :: L') ++
          (if nl then ['\n'] else []))).data =
          intercalateNl (l1 :: L') ++ (if nl then ['\n'] else []) := rfl
      rw [hd, trim_intercalateNl l1 L' ln c1 cn _ h1 hc1 hlast h2 hcn htail,
        splitLines_intercalateNl (l1 :: L') (List.cons_ne_nil l1 L') hnl]
    show Except.ok (parseLines (String.mk (intercalateNl (l1 :: L') ++
        (if nl then ['\n'] else [])))) =
      Except.ok ((l1 :: L').map
        (fun l => { title := String.mk l, description := "" }))
    rw [e]
  · decide

/-- Counterexample to claim C8 as stated: the output consisting of the
single line `"a "` followed by a trailing newline does not yield the
line verbatim — `strings.TrimSpace` also eats the space inside the
line's end, so the item is titled `"a"`. -/
theorem c8_counterexample :
    parseLines ("a \n") = [{ title := "a", description := "" }] ∧
    ¬ parseLines ("a \n") = [{ title := "a ", description := "" }] := by
  decide

/-- Witness for the corrected C8 on the spec's own sample output. -/
theorem c8_line_adapter_witness :
    fetchItems
        { exec := fun _ => { output := "a\nb\nc\n", err := none }, polls := [] }
        cmdNamespaces =
      .ok [{ title := "a", description := "" }, { title := "b", description := "" },
        { title := "c", description := "" }] :=
  c8_line_adapter.1
    { exec := fun _ => { output := "a\nb\nc\n", err := none }, polls := [] }
    cmdNamespaces (['a']) (['c']) ([['b'], ['c']]) 'a' 'c' true
    (by decide) (by decide) (by decide) (by decide) (by decide) (by decide)
    (by decide)
